import Mathlib

/-!
# Verification of the kube-compose volume-init / in-memory-fs core

Shallow embedding of the Go sources:
* `fs` package (`evalSymlinksHelper`, `mkdirCommon`, `MkdirAll`) — src/unnamed/part_000
* `docker` package (`ResolveLocalImageAfterPull`) — src/unnamed/part_000
* `up` package (`buildVolumeInitImageGetDockerfile`, `bindMountHostFileToTarHelper`,
  `bindMouseHostFileToTar`, `buildVolumeInitImage`, `resolveBindVolumeHostPath`)
  — src/unnamed/part_001

Go strings are modelled as `List Char` (`Str`), Go errors as the inductive `GoErr`,
and the in-memory virtual file system as the `FNode` tree together with a `VFS`
wrapper.  The model is posix-only (`filepath.Separator = '/'`,
`filepath.VolumeName _ = ""`), matching the design notes in the spec ("document
current behavior as posix-only").
-/

/-- Go `string`, modelled as a list of characters. -/
abbrev Str := List Char

/-- Go `error` values that occur in the modelled code.
`notExist` is `os.ErrNotExist`, `exist` is `os.ErrExist`, `notDir` is
`syscall.ENOTDIR`, `badMode` is the fs package's `errBadMode`, `tooManyLinks` is
`errTooManyLinks`, `testErr` is the seeded test error, `errMsg` is an error built
with `fmt.Errorf`, `wrap` is `errors.Wrap`, and `outOfFuel` is an artifact of the
fuelled embedding (proved unreachable where it matters). -/
inductive GoErr where
  | notExist
  | exist
  | notDir
  | badMode
  | tooManyLinks
  | testErr
  | errMsg (s : Str)
  | wrap (s : Str) (inner : GoErr)
  | outOfFuel
deriving DecidableEq

/-- Modelled from the spec: a virtual-file-system node ("Each node carries: a name
component …; a mode bitset distinguishing regular file / directory / symbolic
link; for regular files, a byte payload; for directories, an ordered list of
child nodes (insertion order preserved, linear lookup …); for symlinks, a target
byte string; an optional pre-seeded error sentinel used to force read failures
for a specific node").  The node struct itself is not under src/, but its shape
is visible from the uses in src/unnamed/part_000 (`mode & os.ModeDir`,
`dirLookup`, `childN.err`, `childN.extra.([]byte)`, `newDirNode`, `dirAppend`).
Names are kept on the parent's child list; `perm` records the permission bits a
directory was created with. -/
inductive FNode where
  | file (content : Str) (err : Option GoErr)
  | dir (perm : Nat) (children : List (Str × FNode)) (err : Option GoErr)
  | symlink (target : Str) (err : Option GoErr)

/-- `node.mode & os.ModeDir != 0`. -/
def FNode.isDir : FNode → Bool
  | .dir _ _ _ => true
  | _ => false

/-- `node.mode & os.ModeSymlink != 0`. -/
def FNode.isSymlink : FNode → Bool
  | .symlink _ _ => true
  | _ => false

/-- The node's pre-seeded error sentinel. -/
def FNode.errOf : FNode → Option GoErr
  | .file _ e => e
  | .dir _ _ e => e
  | .symlink _ e => e

/-- `node.dirLookup(name)`: linear lookup of a child by name component
(insertion order, first match). -/
def lookupChild : List (Str × FNode) → Str → Option FNode
  | [], _ => none
  | (nm, c) :: rest, name => if nm = name then some c else lookupChild rest name

/-- Replace the first child with the given name (used to model in-place mutation
of a child subtree when rebuilding the immutable tree). -/
def updFirst : List (Str × FNode) → Str → FNode → List (Str × FNode)
  | [], _, _ => []
  | (nm, c) :: rest, name, c' =>
      if nm = name then (nm, c') :: rest else (nm, c) :: updFirst rest name c'

/-- Modelled from the spec: the virtual file system handle.  The working
directory of the in-memory implementation is the root (`cwd = "/"`); the missing
`virtualFileSystem`/`InMemoryFileSystem` struct is reduced to its root node. -/
structure VFS where
  root : FNode

/-- Split a path on `'/'`, Go `strings.Split` style: every separator produces a
boundary, so empty components are kept (`splitComps "a//b" = ["a","","b"]`,
`splitComps "" = [""]`).  Processing a Go path string component-by-component with
`strings.IndexByte(s, '/')` is exactly iteration over this list. -/
def splitComps : Str → List Str
  | [] => [[]]
  | c :: rest =>
      if c = '/' then [] :: splitComps rest
      else
        match splitComps rest with
        | [] => [[c]]
        | comp :: comps => (c :: comp) :: comps

/-- The nonempty components of a path. -/
def compsOf (s : Str) : List Str := (splitComps s).filter (fun c => ¬ c = [])

/-! ## A computable size measure on the node tree

Used only to pick sufficient fuel for the fuelled loops below; defined by
structural recursion so that everything evaluates inside the kernel. -/

mutual
/-- Size of a node: counts constructors and string lengths. -/
def FNode.weight : FNode → Nat
  | .file c _ => c.length + 2
  | .symlink t _ => t.length + 2
  | .dir _ children _ => weightChildren children + 2
/-- Size of a child list. -/
def weightChildren : List (Str × FNode) → Nat
  | [] => 1
  | (_, c) :: rest => FNode.weight c + weightChildren rest + 1
end

/-! ## `fs.EvalSymlinks` (src/unnamed/part_000, `evalSymlinksHelper`)

The helper state carries the link-substitution counter, the resolved prefix,
the current node and the unconsumed suffix.  The Go code processes `nameRem`
with `strings.IndexByte(nameRem, '/')`; here the suffix is kept pre-split into
components (`splitComps`), which visits exactly the same components in the same
order.  (The Go string-level distinction `nameRem != ""` when prepending a link
target is immaterial after splitting: appending to the empty component list is
the identity.) -/

structure EvalSt where
  links : Nat
  resolved : Str
  n : FNode
  nameRem : List Str

/-- `evalSymlinksHelper.updateFromChildN`: a symlink substitution increments the
link counter, fails with `errTooManyLinks` when it exceeds 255, prepends the
link target to the unconsumed suffix (`target[j:] + "/" + nameRem`), and resets
the walk to the root for an absolute target; a non-symlink child extends the
resolved prefix.  `st.nameRem` is the suffix after `updateNameRemFromSlashPos`
has consumed the current component, exactly as in the Go call order. -/
def updateFromChildN (fs : VFS) (st : EvalSt) (childN : FNode) (nameComp : Str) :
    Except GoErr EvalSt :=
  match childN with
  | .symlink target _ =>
      if st.links + 1 > 255 then .error .tooManyLinks
      else if target.head? = some '/' then
        .ok { links := st.links + 1, resolved := ['/'], n := fs.root,
              nameRem := splitComps (target.drop 1) ++ st.nameRem }
      else
        .ok { links := st.links + 1, resolved := st.resolved, n := st.n,
              nameRem := splitComps target ++ st.nameRem }
  | _ => .ok { st with resolved := st.resolved ++ '/' :: nameComp, n := childN }

/-- `evalSymlinksHelper.run`, fuelled: one unit of fuel per loop iteration.
`none` is fuel exhaustion; `runF_fuel_sufficient` shows the fuel chosen by
`evalSymlinksRun` never exhausts.  (`validateNameComp` is modelled from the
spec as a no-op on the valid component names that can actually be stored in a
directory.) -/
def runF (fs : VFS) : Nat → EvalSt → Option (Except GoErr Str)
  | fuel, st =>
    match st.nameRem with
    | [] => some (.ok st.resolved)
    | comp :: rest =>
      match fuel with
      | 0 => none
      | fuel + 1 =>
        if comp = [] then runF fs fuel { st with nameRem := rest }
        else
          match st.n with
          | .dir _ children _ =>
            match lookupChild children comp with
            | none => some (.error .notExist)
            | some childN =>
              match childN.errOf with
              | some e => some (.error e)
              | none =>
                match updateFromChildN fs { st with nameRem := rest } childN comp with
                | .error e => some (.error e)
                | .ok st' => runF fs fuel st'
          | _ => some (.error .notDir)

/-- The fuel given to `runF`: enough for every loop iteration
(`runF_fuel_sufficient`). -/
def evalFuel (fs : VFS) (nameRem : List Str) : Nat :=
  nameRem.length + 257 * (fs.root.weight + 2)

/-- The `h.run()` call of `virtualFileSystem.EvalSymlinks` with the helper state
built exactly as in the source: an absolute path starts at the root with
`resolved = "/"`, anything else starts at the working directory (the root, see
`VFS`) with `resolved` left at its zero value `""`. -/
def evalSymlinksRun (fs : VFS) (path : Str) : Option (Except GoErr Str) :=
  if path.head? = some '/' then
    runF fs (evalFuel fs (splitComps (path.drop 1)))
      { links := 0, resolved := ['/'], n := fs.root, nameRem := splitComps (path.drop 1) }
  else
    runF fs (evalFuel fs (splitComps path))
      { links := 0, resolved := [], n := fs.root, nameRem := splitComps path }

/-- `virtualFileSystem.EvalSymlinks`.  For an absolute path the root's seeded
error is checked first, as in the source.  The `getD` default is unreachable
(`runF_fuel_sufficient`). -/
def EvalSymlinks (fs : VFS) (path : Str) : Except GoErr Str :=
  if path.head? = some '/' then
    match fs.root.errOf with
    | some e => .error e
    | none => (evalSymlinksRun fs path).getD (.error .tooManyLinks)
  else (evalSymlinksRun fs path).getD (.error .tooManyLinks)

/-- The loop measure: remaining components plus the remaining link budget scaled
by a bound on the number of components any link target in the tree can add. -/
def evalMeasure (fs : VFS) (st : EvalSt) : Nat :=
  st.nameRem.length + (256 - st.links) * (fs.root.weight + 2)

/-! ## `fs.find`, `Lstat` and `Mkdir`/`MkdirAll` (src/unnamed/part_000) -/

/-- Modelled from the spec: `fs.find` walks name components from the root (the
working directory is the root, see `VFS`) without following symlinks, returning
the deepest node reached, the unconsumed suffix, and `nil`, `os.ErrNotExist`
(missing component) or `syscall.ENOTDIR` (spec §3: "Attempting `lookup` of a
name component through a non-directory fails with `not-a-directory`").
Pre-seeded node errors are surfaced by the operations that use the found node
(`Lstat`, `Open`, `Readlink`), not by the walk itself. -/
def findAux : FNode → List Str → FNode × List Str × Option GoErr
  | n, [] => (n, [], none)
  | n, comp :: rest =>
      if comp = [] then findAux n rest
      else
        match n with
        | .dir _ children _ =>
            match lookupChild children comp with
            | some child => findAux child rest
            | none => (n, comp :: rest, some .notExist)
        | _ => (n, comp :: rest, some .notDir)

/-- `fs.find` resolving the full path: the node when everything was consumed
without error. -/
def findNode (fs : VFS) (path : Str) : Except GoErr FNode :=
  match findAux fs.root (splitComps path) with
  | (n, _, none) => .ok n
  | (_, _, some e) => .error e

/-- Modelled from the spec: `Lstat` finds the node without following a symlink
at the final component and surfaces the node's pre-seeded error sentinel
("an optional pre-seeded error sentinel used to force read failures"). -/
def Lstat (fs : VFS) (path : Str) : Except GoErr FNode :=
  match findNode fs path with
  | .error e => .error e
  | .ok n =>
      match n.errOf with
      | some e => .error e
      | none => .ok n

/-- Go `os.FileMode` bit constants (`os.ModeDir` is bit 31, counting down). -/
def goModeDir : Nat := 2 ^ 31

/-- Go `os.ModeSymlink`. -/
def goModeSymlink : Nat := 2 ^ 27

/-- Go `os.ModeDevice`. -/
def goModeDevice : Nat := 2 ^ 26

/-- Go `os.ModeNamedPipe`. -/
def goModeNamedPipe : Nat := 2 ^ 25

/-- Go `os.ModeSocket`. -/
def goModeSocket : Nat := 2 ^ 24

/-- Go `os.ModeSetuid` — not part of `os.ModeType`. -/
def goModeSetuid : Nat := 2 ^ 23

/-- Go `os.ModeCharDevice`. -/
def goModeCharDevice : Nat := 2 ^ 21

/-- Go `os.ModeSticky` — not part of `os.ModeType`. -/
def goModeSticky : Nat := 2 ^ 20

/-- Go `os.ModeIrregular`. -/
def goModeIrregular : Nat := 2 ^ 19

/-- Go `os.ModeType = ModeDir | ModeSymlink | ModeNamedPipe | ModeSocket |
ModeDevice | ModeCharDevice | ModeIrregular`: the file-TYPE bits.  Note that
mode bits such as `ModeSetuid`, `ModeSetgid` and `ModeSticky` are neither type
bits nor permission bits. -/
def goModeType : Nat :=
  goModeDir + goModeSymlink + goModeNamedPipe + goModeSocket + goModeDevice
    + goModeCharDevice + goModeIrregular

/-- Go `os.ModePerm = 0777`: the permission bits. -/
def goModePerm : Nat := 0o777

/-- `newDirNode(perm, name)`: a fresh empty directory node (the name lives on
the parent's child list in this model). -/
def newDirNode (perm : Nat) : FNode := .dir perm [] none

/-- `InMemoryFileSystem.mkdirCommonAll` from the first missing component on:
one directory per remaining nonempty component, each appended inside the
previous one. -/
def mkdirChain (perm : Nat) : List Str → FNode
  | [] => newDirNode perm
  | comp :: rest =>
      if comp = [] then mkdirChain perm rest
      else .dir perm [(comp, mkdirChain perm rest)] none

/-- The walk of `fs.find` fused with the checks of
`InMemoryFileSystem.mkdirCommon` (src/unnamed/part_000), rebuilding the
immutable tree along the walked path:
* path fully consumed — `all`: noop for an existing directory,
  `syscall.ENOTDIR` otherwise (`!n.mode.IsDir()`); not `all`: `os.ErrExist`;
* missing component — `all`: create the remaining chain (`mkdirCommonAll`);
  not `all`: `os.ErrNotExist` if a separator remains (`strings.IndexByte`),
  otherwise append one directory;
* component lookup through a non-directory — `syscall.ENOTDIR` (propagated by
  `err != nil && !os.IsNotExist(err)`). -/
def mkdirCommonAux (perm : Nat) (all : Bool) : FNode → List Str → FNode × Option GoErr
  | n, [] =>
      if all then (if n.isDir then (n, none) else (n, some .notDir))
      else (n, some .exist)
  | n, comp :: rest =>
      if comp = [] then mkdirCommonAux perm all n rest
      else
        match n with
        | .dir p children nerr =>
            match lookupChild children comp with
            | some child =>
                let res := mkdirCommonAux perm all child rest
                (.dir p (updFirst children comp res.1) nerr, res.2)
            | none =>
                if all then
                  (.dir p (children ++ [(comp, mkdirChain perm rest)]) nerr, none)
                else if rest = [] then
                  (.dir p (children ++ [(comp, newDirNode perm)]) nerr, none)
                else (n, some .notExist)
        | _ => (n, some .notDir)

/-- `InMemoryFileSystem.mkdirCommon`: refuse modes with a type bit
(`perm & os.ModeType != 0` gives `errBadMode`), then walk and create. -/
def mkdirCommon (fs : VFS) (name : Str) (perm : Nat) (all : Bool) :
    VFS × Option GoErr :=
  if perm &&& goModeType ≠ 0 then (fs, some .badMode)
  else
    let res := mkdirCommonAux perm all fs.root (splitComps name)
    (⟨res.1⟩, res.2)

/-- `InMemoryFileSystem.Mkdir`. -/
def Mkdir (fs : VFS) (name : Str) (perm : Nat) : VFS × Option GoErr :=
  mkdirCommon fs name perm false

/-- `InMemoryFileSystem.MkdirAll`. -/
def MkdirAll (fs : VFS) (name : Str) (perm : Nat) : VFS × Option GoErr :=
  mkdirCommon fs name perm true

/-- Spec-side (C8): every component of the path already exists as a directory
(each lookup succeeds and the final node is a directory; empty components are
skipped as in the walk). -/
def allDirsOnPath : FNode → List Str → Bool
  | n, [] => n.isDir
  | n, comp :: rest =>
      if comp = [] then allDirsOnPath n rest
      else
        match n with
        | .dir _ children _ =>
            match lookupChild children comp with
            | some child => allDirsOnPath child rest
            | none => false
        | _ => false

/-- Spec-side (C8): the walk meets an existing non-directory node while part of
the path remains — "some existing prefix component is not a directory". -/
def hitsNonDir : FNode → List Str → Bool
  | n, [] => !n.isDir
  | n, comp :: rest =>
      if comp = [] then hitsNonDir n rest
      else
        match n with
        | .dir _ children _ =>
            match lookupChild children comp with
            | some child => hitsNonDir child rest
            | none => false
        | _ => true

/-- Spec-side (C7): walk the components of a path from the given node, requiring
every looked-up node (intermediate and final) to not be a symbolic link.
`cleanWalk n comps = some m` says the path resolves to `m` and "contains no
symlink components". -/
def cleanWalk : FNode → List Str → Option FNode
  | n, [] => some n
  | n, comp :: rest =>
      match n with
      | .dir _ children _ =>
          match lookupChild children comp with
          | some child => if child.isSymlink then none else cleanWalk child rest
          | none => none
      | _ => none

/-- Invariant of the `EvalSymlinks` loop (C7): the resolved prefix walks
cleanly (through no symlink) from the root to the current node, and the
unconsumed components are separator-free. -/
def CleanInv (fs : VFS) (st : EvalSt) : Prop :=
  cleanWalk fs.root (compsOf st.resolved) = some st.n ∧
  ∀ c ∈ st.nameRem, ('/' : Char) ∉ c

/-! ## posix `path/filepath` helpers (`Clean`, `Dir`, `Base`, `Abs`, `Join`,
`Rel`), translated from the Go standard library as used by the sources.  The
model is posix-only: `filepath.Separator = '/'` and `filepath.VolumeName` is
always empty. -/

/-- Join components with `'/'`. -/
def joinComps : List Str → Str
  | [] => []
  | [c] => c
  | c :: rest => c ++ '/' :: joinComps rest

/-- The element-stack loop of `filepath.Clean`: skip empty and `.` components;
`..` pops an element, stays put at the root, and accumulates when the path is
relative.  The accumulator holds the output components in reverse. -/
def cleanStack (rooted : Bool) : List Str → List Str → List Str
  | acc, [] => acc
  | acc, c :: rest =>
      if c = [] ∨ c = ['.'] then cleanStack rooted acc rest
      else if c = ['.', '.'] then
        match acc with
        | [] =>
            if rooted then cleanStack rooted [] rest
            else cleanStack rooted [['.', '.']] rest
        | top :: acc' =>
            if top = ['.', '.'] then cleanStack rooted (['.', '.'] :: acc) rest
            else cleanStack rooted acc' rest
      else cleanStack rooted (c :: acc) rest

/-- `filepath.Clean`, posix. -/
def goClean (p : Str) : Str :=
  let rooted := p.head? = some '/'
  let stack := (cleanStack rooted [] (splitComps p)).reverse
  if rooted then '/' :: joinComps stack
  else if stack = [] then ['.']
  else joinComps stack

/-- `filepath.Dir`, posix: everything up to the final separator, cleaned;
`"."` when there is no separator. -/
def goDir (p : Str) : Str :=
  match p.reverse.findIdx? (fun c => c = '/') with
  | none => ['.']
  | some k => goClean (p.take (p.length - k))

/-- `filepath.Base`, posix. -/
def goBase (p : Str) : Str :=
  if p = [] then ['.']
  else
    let q := (p.reverse.dropWhile (fun c => c = '/')).reverse
    if q = [] then ['/']
    else (q.reverse.takeWhile (fun c => ¬ c = '/')).reverse

/-- `filepath.Abs` with the working directory at the root (see `VFS`):
`Clean` of the path made absolute. -/
def goAbs (p : Str) : Str :=
  if p.head? = some '/' then goClean p else goClean ('/' :: p)

/-- `filepath.Join` of two elements (empty elements are skipped, the result is
cleaned). -/
def goJoin (a b : Str) : Str :=
  if a = [] then goClean b
  else if b = [] then goClean a
  else goClean (a ++ '/' :: b)

/-- Length of the longest common prefix of two component lists. -/
def commonPrefixLen : List Str → List Str → Nat
  | a :: as2, b :: bs => if a = b then commonPrefixLen as2 bs + 1 else 0
  | _, _ => 0

/-- `filepath.Rel`, posix, on component lists: clean both, strip the common
component prefix, go up with one `..` per remaining base component, then down
the remaining target components.  Errors when exactly one side is rooted or
when the remaining base starts with `..`. -/
def goRel (base targ : Str) : Except GoErr Str :=
  let b := goClean base
  let t := goClean targ
  if b = t then .ok ['.']
  else
    let b2 := if b = ['.'] then [] else b
    if (b2.head? = some '/') ≠ (t.head? = some '/') then
      .error (.errMsg ("Rel: cannot make ".toList ++ targ
        ++ " relative to ".toList ++ base))
    else
      let bc := compsOf b2
      let tc := compsOf t
      let k := commonPrefixLen bc tc
      let brem := bc.drop k
      let trem := tc.drop k
      if brem.head? = some ['.', '.'] then
        .error (.errMsg ("Rel: cannot make ".toList ++ targ
          ++ " relative to ".toList ++ base))
      else if brem = [] then .ok (joinComps trem)
      else .ok (joinComps (List.replicate brem.length ['.', '.'] ++ trem))

/-! ## The tar materializer (src/unnamed/part_001,
`bindMountHostFileToTarHelper` and `bindMouseHostFileToTar`)

The tar writer is modelled as the list of entries written, in order, following
the `mockTarWriter` of the repository's tests (header plus accumulated data per
entry).  Both writers the program uses — the test mock and an
`archive/tar.Writer` over a `bytes.Buffer` — cannot fail, so `WriteHeader` and
`io.Copy` always succeed and `twMayBeCorrupt` is retained and threaded exactly
as in the source but is never set.  `os.FileInfo` values are modelled by the
node they describe (the in-memory `FileInfo` wraps the node; `Readdir` returns
the children of the node the walk is standing on). -/

/-- One tar entry, as recorded by the test mock: directory header, regular file
header with its copied data, or symlink header with its link name. -/
inductive TarEntry where
  | dirE (name : Str)
  | regE (name : Str) (content : Str)
  | lnkE (name : Str) (linkname : Str)
deriving DecidableEq

/-- The mutable state of `bindMountHostFileToTarHelper`: the tar writer's
entries and the `twMayBeCorrupt` flag. -/
structure TarState where
  entries : List TarEntry
  twMayBeCorrupt : Bool
deriving DecidableEq

/-- `endHeaderCommon`: write the header.  The writer cannot fail (see above),
so no error is returned and the corrupt flag is not set. -/
def writeEntry (st : TarState) (e : TarEntry) : TarState :=
  { st with entries := st.entries ++ [e] }

/-- The read-only fields of `bindMountHostFileToTarHelper`.  On posix
`rootHostFileVol = ""` and `rootHostFileWithoutVol = rootHostFile`. -/
structure TarCtx where
  renameTo : Str
  rootHostFile : Str

/-- `%#v` of a string (the inputs used contain no characters that Go would
escape). -/
def goQuote (s : Str) : Str := '"' :: (s ++ ['"'])

/-- `bindMountHostFileToTarHelper.isFileWithinBindHostRoot`: the target's
volume must equal the root's (always true on posix), the root must be a prefix,
and the prefix must end at the end of the target or at a separator. -/
def isFileWithinBindHostRoot (ctx : TarCtx) (target : Str) : Bool :=
  if ctx.rootHostFile.isPrefixOf target then
    if target.length = ctx.rootHostFile.length then true
    else if (target.drop ctx.rootHostFile.length).head? = some '/' then true
    else false
  else false

/-- The message of the symlink-escape error: note that the Go format string
interpolates the symlink path (`hostFile`) and the bind root
(`h.rootHostFile`). -/
def escapeMsg (hostFile root : Str) : Str :=
  "target of symlink ".toList ++ goQuote hostFile
    ++ " it outside the bind volume with host ".toList ++ goQuote root

/-- The resolved link target of `runSymlink`: an absolute-looking link goes
through `filepath.Abs`, a relative one is joined against the link's parent
directory. -/
def resolveLinkTarget (hostFile target : Str) : Str :=
  if target.head? = some '\\' ∨ target.head? = some '/' then goAbs target
  else goJoin (goDir hostFile) target

/-- `bindMountHostFileToTarHelper.runSymlink`: read the link (surfacing the
node's seeded error, wrapped), resolve the target, check containment; when
contained write a symlink entry whose link name is the relative path from the
entry's parent in the tar tree to the target's position in the tar tree
(`filepath.Rel(filepath.Dir(fileNameInTar), renameTo + target[len(root):])`,
whose error is discarded in the source); otherwise fail with the escape
error. -/
def runSymlink (ctx : TarCtx) (st : TarState) (n : FNode)
    (hostFile fileNameInTar : Str) : TarState × Option GoErr :=
  match n with
  | .symlink target terr =>
      match terr with
      | some e =>
          (st, some (.wrap ("error while reading link ".toList ++ goQuote hostFile) e))
      | none =>
          let linkResolved := resolveLinkTarget hostFile target
          if isFileWithinBindHostRoot ctx linkResolved then
            let linkResolvedInTar := ctx.renameTo ++ linkResolved.drop ctx.rootHostFile.length
            let linkRel := (goRel (goDir fileNameInTar) linkResolvedInTar).toOption.getD []
            (writeEntry st (.lnkE fileNameInTar linkRel), none)
          else (st, some (.errMsg (escapeMsg hostFile ctx.rootHostFile)))
  | _ => (st, some (.errMsg "readlink: invalid argument".toList))

/-- `bindMountHostFileToTarHelper.runRegular`: `tar.FileInfoHeader` (total for
a regular file), `os.Open` (surfacing the seeded error), header write and
content copy (the writer cannot fail). -/
def runRegular (st : TarState) (n : FNode) (fileNameInTar : Str) :
    TarState × Option GoErr :=
  match n with
  | .file content cerr =>
      match cerr with
      | some e => (st, some e)
      | none => (writeEntry st (.regE fileNameInTar content), none)
  | _ => (st, some (.errMsg "not a regular file".toList))

/-- `bindMountHostFileToTarHelper.runRecursive` (with `runDirectory` inlined),
fuelled: a directory opens (surfacing its seeded error), writes its header with
a trailing slash, then recurses into its children in insertion order, stopping
at the first error.  The fuel only bounds the depth and is chosen as the
node's `weight`, which always suffices. -/
def runRecursiveF (ctx : TarCtx) : Nat → TarState → FNode → Str → Str →
    TarState × Option GoErr
  | 0, st, _, _, _ => (st, some .outOfFuel)
  | fuel + 1, st, n, hostFile, fileNameInTar =>
      match n with
      | .symlink _ _ => runSymlink ctx st n hostFile fileNameInTar
      | .dir _ children derr =>
          match derr with
          | some e => (st, some e)
          | none =>
              let st1 := writeEntry st (.dirE (fileNameInTar ++ ['/']))
              children.foldl
                (fun acc child =>
                  match acc with
                  | (st', some e) => (st', some e)
                  | (st', none) =>
                      runRecursiveF ctx fuel st' child.2
                        (hostFile ++ '/' :: child.1)
                        (fileNameInTar ++ '/' :: child.1))
                (st1, none)
      | .file _ _ => runRegular st n fileNameInTar

/-- `bindMountHostFileToTarHelper.run`: `Lstat`, the recursive walk, and the
in-method recovery block of the source, which on a walk error with an
uncorrupted writer writes an empty-directory entry and returns
`isDir = true, err = nil`.  The entry's name comes from
`tar.FileInfoHeader(fileInfo, "")` — which is the file's base name, *with a
slash already appended when the file info describes a directory* — followed by
the source's own `header.Name += "/"`; so for a directory host file the entry
is named `base ++ "//"`. -/
def runTop (fs : VFS) (ctx : TarCtx) (st : TarState)
    (hostFile fileNameInTar : Str) : Bool × Option GoErr × TarState :=
  match Lstat fs hostFile with
  | .error e => (false, some e, st)
  | .ok n =>
      let res := runRecursiveF ctx n.weight st n hostFile fileNameInTar
      match res.2 with
      | none => (n.isDir, none, res.1)
      | some e =>
          if res.1.twMayBeCorrupt then (false, some e, res.1)
          else
            (true, none,
             writeEntry res.1
               (.dirE ((goBase hostFile ++ (if n.isDir then ['/'] else [])) ++ ['/'])))

/-- `bindMouseHostFileToTar` (sic): the entry point.  On an error from `run`
with an uncorrupted writer it synthesizes a single empty-directory entry named
`renameTo + "/"` and reports `isDir = true, err = nil`; with a corrupted writer
the error propagates with `isDir = false`. -/
def bindMouseHostFileToTar (fs : VFS) (hostFile renameTo : Str) :
    Bool × Option GoErr × TarState :=
  let ctx : TarCtx := { renameTo := renameTo, rootHostFile := hostFile }
  let st0 : TarState := { entries := [], twMayBeCorrupt := false }
  let res := runTop fs ctx st0 hostFile renameTo
  match res.2.1 with
  | none => res
  | some e =>
      if res.2.2.twMayBeCorrupt then (false, some e, res.2.2)
      else (true, none, writeEntry res.2.2 (.dirE (renameTo ++ ['/'])))

/-! ## The image builder (src/unnamed/part_001, `buildVolumeInitImage` and
`buildVolumeInitImageGetDockerfile`) -/

/-- Decimal rendering of a number, as `fmt.Fprintf` with `%d`. -/
def natStr (n : Nat) : Str := (Nat.repr n).toList

/-- The `COPY` loop of `buildVolumeInitImageGetDockerfile`
(`for i := 1; i <= len(isDirSlice); i++`). -/
def dockerfileCopyLines : Nat → List Bool → Str
  | _, [] => []
  | i, d :: rest =>
      (if d then
        "COPY data".toList ++ natStr i ++ "/ /app/data/vol".toList
          ++ natStr i ++ "/\n".toList
       else
        "COPY data".toList ++ natStr i ++ " /app/data/vol".toList
          ++ natStr i ++ "\n".toList)
      ++ dockerfileCopyLines (i + 1) rest

/-- The `ENTRYPOINT` loop of `buildVolumeInitImageGetDockerfile`
(`if i > 1 { " && " }` between commands). -/
def dockerfileCpParts : Nat → List Bool → Str
  | _, [] => []
  | i, _ :: rest =>
      (if i > 1 then " && ".toList else [])
      ++ "cp -r /app/data/vol".toList ++ natStr i
      ++ " /mnt/vol".toList ++ natStr i ++ "/root".toList
      ++ dockerfileCpParts (i + 1) rest

/-- `buildVolumeInitImageGetDockerfile`. -/
def buildVolumeInitImageGetDockerfile (isDirSlice : List Bool) : Str :=
  "ARG BASE_IMAGE\nFROM ${BASE_IMAGE}\n".toList
    ++ dockerfileCopyLines 1 isDirSlice
    ++ "ENTRYPOINT [\"bash\", \"-c\", \"".toList
    ++ dockerfileCpParts 1 isDirSlice
    ++ "\"]\n".toList

/-- Lower-case hexadecimal digit. -/
def isHexLower (c : Char) : Bool :=
  ('0' ≤ c && c ≤ '9') || ('a' ≤ c && c ≤ 'f')

/-- Modelled from the spec: the digest pattern of `docker.NewDigestRegexp`
("`sha256:` followed by 64 hex characters", lower-case per the spec's image-ID
format), tested at the start of the string. -/
def matchDigestAt (s : Str) : Bool :=
  "sha256:".toList.isPrefixOf s
    && ((s.drop 7).take 64).length = 64
    && ((s.drop 7).take 64).all isHexLower

/-- `regexp.FindStringIndex`: the start of the leftmost match. -/
def findDigestIdx : Str → Option Nat
  | [] => none
  | c :: rest =>
      if matchDigestAt (c :: rest) then some 0
      else (findDigestIdx rest).map (fun i => i + 1)

/-- `msg.Stream[loc[0] : loc[0]+i]` with
`i = docker.Sha256BitLength/4 + len(docker.Sha256Prefix) = 64 + 7 = 71`. -/
def extractDigest (m : Str) : Option Str :=
  (findDigestIdx m).map (fun loc => (m.drop loc).take 71)

/-- The decode loop of `buildVolumeInitImage` over the decoded JSON messages'
`Stream` fields: every message containing a digest match overwrites
`r.imageID` with the leftmost match of that message. -/
def buildImageIDScan (msgs : List Str) : Str :=
  msgs.foldl
    (fun imageID m =>
      match extractDigest m with
      | some d => d
      | none => imageID)
    []

/-- `buildVolumeInitImage` after a successful `ImageBuild` call, reduced to its
image-ID extraction: scan the stream, and fail with the
could-not-parse-image-id error when the scan ends empty. -/
def buildVolumeInitImageID (msgs : List Str) : Except GoErr Str :=
  let r := buildImageIDScan msgs
  if r = [] then
    .error (.errMsg "could not parse image ID from docker build output stream".toList)
  else .ok r

/-- Spec-side (C1, as claimed): "the first such match across the whole
stream" — the leftmost match of the first message that contains one. -/
def firstDigestAcrossStream (msgs : List Str) : Option Str :=
  msgs.findSome? extractDigest

/-- Spec-side (C1, as the code behaves): the leftmost match of the last
message that contains one. -/
def lastDigestAcrossStream (msgs : List Str) : Option Str :=
  (msgs.filterMap extractDigest).getLast?

/-! ## `docker.ResolveLocalImageAfterPull` (src/unnamed/part_000) -/

/-- One `dockerTypes.ImageSummary`: the image ID and its repo digests. -/
structure ImageSummary where
  id : Str
  repoDigests : List Str
deriving DecidableEq

/-- The inner loop over `imageSummaries[i].RepoDigests`. -/
def repoDigestsHave (repoDigest : Str) : List Str → Bool
  | [] => false
  | rd2 :: rest => if repoDigest = rd2 then true else repoDigestsHave repoDigest rest

/-- The outer loop over `imageSummaries`. -/
def rlaipLoop (repoDigest : Str) : List ImageSummary → Str × Str
  | [] => ([], [])
  | s :: rest =>
      if repoDigestsHave repoDigest s.repoDigests then (s.id, repoDigest)
      else rlaipLoop repoDigest rest

/-- `ResolveLocalImageAfterPull` after a successful `ImageList` call: the repo
digest is `familiarName + "@" + digest`; the first image carrying it is
returned with a `nil` error, and `("", "", nil)` is returned when none does. -/
def ResolveLocalImageAfterPull (summaries : List ImageSummary)
    (familiarName digest : Str) : (Str × Str) × Option GoErr :=
  (rlaipLoop (familiarName ++ '@' :: digest) summaries, none)

/-! ## `resolveBindVolumeHostPath` (src/unnamed/part_001) -/

/-- The segment walk of `resolveBindVolumeHostPath`: append the next segment,
evaluate symlinks; on `os.IsNotExist` reconstruct the remaining path literally
and `MkdirAll` it with mode `0777`; on any other error propagate; on success
continue from the evaluated path. -/
def rbvhpLoop (fs : VFS) : Str → List Str → (Except GoErr Str) × VFS
  | result, [] => (.ok result, fs)
  | result, p :: rest =>
      let result2 := result ++ '/' :: p
      match EvalSymlinks fs result2 with
      | .error .notExist =>
          let full := result2 ++ rest.foldl (fun acc q => acc ++ '/' :: q) []
          let m := MkdirAll fs full 0o777
          (match m.2 with
           | none => .ok full
           | some er => .error er, m.1)
      | .error e => (.error e, fs)
      | .ok resolved => rbvhpLoop fs resolved rest

/-- `resolveBindVolumeHostPath`: make the name absolute, split the cleaned
remainder on the separator (`parts[0]` is empty for a rooted path, the loop
starts at index 1 with `result = vol = ""`), and walk. -/
def resolveBindVolumeHostPath (fs : VFS) (name : Str) : (Except GoErr Str) × VFS :=
  let nameAbs := goAbs name
  let parts := splitComps (goClean nameAbs)
  rbvhpLoop fs [] (parts.drop 1)

/-! ## Concrete virtual file systems from the repository's tests
(src/internal/app/up/volume_test.go) -/

/-- The mock VFS of volume_test.go: `/orig` (content `"content"`), `/origerr`
(seeded error), `/dir/file1`, `/dir/file2`, `/dir2/file`,
`/dir2/symlink → file`, `/dir3/symlink → /dir2`. -/
def testFs : VFS :=
  ⟨.dir 0
    [("orig".toList, .file "content".toList none),
     ("origerr".toList, .file [] (some .testErr)),
     ("dir".toList, .dir 0
        [("file1".toList, .file "content".toList none),
         ("file2".toList, .file "content".toList none)] none),
     ("dir2".toList, .dir 0
        [("file".toList, .file "content".toList none),
         ("symlink".toList, .symlink "file".toList none)] none),
     ("dir3".toList, .dir 0
        [("symlink".toList, .symlink "/dir2".toList none)] none)]
    none⟩

/-- An empty in-memory file system (`NewInMemoryFileSystem(map[...]{})`). -/
def emptyFs : VFS := ⟨.dir 0 [] none⟩

/-- Spec-side (C3): component-wise containment — the target is the root itself
or lies strictly under it. -/
def ContainedUnder (target root : Str) : Prop :=
  target = root ∨ ∃ rest, target = root ++ '/' :: rest

/-- Spec-side (C5): the `COPY` line for 1-based index `i`, with trailing
slashes on source and destination exactly when the entry is a directory. -/
def copyLineSpec (i : Nat) (d : Bool) : Str :=
  "COPY data".toList ++ natStr i ++ (if d then ['/'] else [])
    ++ " /app/data/vol".toList ++ natStr i ++ (if d then ['/'] else []) ++ ['\n']

/-- Spec-side (C5): the `cp` command for 1-based index `i`. -/
def cpPartSpec (i : Nat) : Str :=
  "cp -r /app/data/vol".toList ++ natStr i ++ " /mnt/vol".toList
    ++ natStr i ++ "/root".toList

/-- Join a list of strings with a separator. -/
def sepJoin (sep : Str) : List Str → Str
  | [] => []
  | [x] => x
  | x :: rest => x ++ sep ++ sepJoin sep rest

/-- Concatenation of `sep ++ x` over a list (the tail shape of `sepJoin`). -/
def prejoin (sep : Str) : List Str → Str
  | [] => []
  | x :: rest => sep ++ x ++ prejoin sep rest

/-! ## Helper lemmas and theorems -/

theorem splitComps_ne_nil (s : Str) : splitComps s ≠ [] := by
  cases s with
  | nil => simp [splitComps]
  | cons c rest =>
    simp only [splitComps]
    split
    · simp
    · split <;> simp_all

theorem splitComps_append_slash (a b : Str) :
    splitComps (a ++ '/' :: b) = splitComps a ++ splitComps b := by
  induction a with
  | nil => simp [splitComps]
  | cons c rest ih =>
    by_cases hc : c = '/'
    · subst hc
      simp [splitComps, ih]
    · simp only [List.cons_append, splitComps, if_neg hc, List.append_eq]
      cases h : splitComps rest with
      | nil => exact absurd h (splitComps_ne_nil rest)
      | cons comp comps =>
        rw [ih, h]
        simp

/-- A slash-free nonempty string splits into itself alone. -/
theorem splitComps_no_slash (s : Str) (h : ('/' : Char) ∉ s) :
    splitComps s = [s] := by
  induction s with
  | nil => simp [splitComps]
  | cons c rest ih =>
    simp only [List.mem_cons, not_or] at h
    have hc : ¬ c = '/' := fun hcc => h.1 hcc.symm
    simp only [splitComps, if_neg hc]
    rw [ih h.2]

theorem compsOf_append (a comp : Str) (hne : comp ≠ []) (hsl : ('/' : Char) ∉ comp) :
    compsOf (a ++ '/' :: comp) = compsOf a ++ [comp] := by
  unfold compsOf
  rw [splitComps_append_slash, splitComps_no_slash comp hsl]
  simp [List.filter_append, hne]

theorem length_splitComps_le (s : Str) : (splitComps s).length ≤ s.length + 1 := by
  induction s with
  | nil => simp [splitComps]
  | cons c rest ih =>
    simp only [splitComps]
    split
    · simpa using Nat.succ_le_succ ih
    · cases h : splitComps rest with
      | nil => simp
      | cons comp comps =>
        rw [h] at ih
        simpa using Nat.le_succ_of_le ih

theorem weight_le_weightChildren (ch : List (Str × FNode)) (name : Str) (c : FNode)
    (h : lookupChild ch name = some c) : c.weight ≤ weightChildren ch := by
  induction ch with
  | nil => simp [lookupChild] at h
  | cons hd tl ih =>
    obtain ⟨nm, child⟩ := hd
    simp only [lookupChild] at h
    split at h
    · cases h
      simp only [weightChildren]
      omega
    · have := ih h
      simp only [weightChildren]
      omega

/-- A child found by `dirLookup` in a directory node is smaller than the node. -/
theorem weight_lookupChild (perm : Nat) (ch : List (Str × FNode))
    (nerr : Option GoErr) (name : Str) (c : FNode)
    (h : lookupChild ch name = some c) :
    c.weight < (FNode.dir perm ch nerr).weight := by
  have := weight_le_weightChildren ch name c h
  simp only [FNode.weight]
  omega

/-- Fuel sufficiency for `runF`: starting from a state whose current node is
within the tree, `evalMeasure` many units of fuel never exhaust.  This is the
termination argument for symlink evaluation: every loop iteration either
consumes one path component or performs one of at most 256 link substitutions,
each of which adds fewer components than `fs.root.weight + 2`. -/
theorem runF_fuel_sufficient (fs : VFS) :
    ∀ (fuel : Nat) (st : EvalSt), st.n.weight ≤ fs.root.weight →
      evalMeasure fs st ≤ fuel → runF fs fuel st ≠ none := by
  intro fuel
  induction fuel with
  | zero =>
    intro st hn hm
    unfold runF
    cases hrem : st.nameRem with
    | nil => simp
    | cons comp rest =>
      exfalso
      unfold evalMeasure at hm
      rw [hrem] at hm
      simp at hm
  | succ f ih =>
    intro st hn hm
    obtain ⟨links, resolved, n, nameRem⟩ := st
    simp only at hn
    unfold evalMeasure at hm
    simp only at hm
    unfold runF
    cases nameRem with
    | nil => simp
    | cons comp rest =>
      simp only [List.length_cons] at hm
      simp only
      split
      · -- empty component: consume it
        apply ih
        · exact hn
        · unfold evalMeasure
          simp only
          omega
      · cases n with
        | dir perm children nerr =>
          simp only
          cases hlk : lookupChild children comp with
          | none => simp
          | some childN =>
            simp only
            cases herr : childN.errOf with
            | some e => simp
            | none =>
              simp only
              cases childN with
              | symlink target terr =>
                unfold updateFromChildN
                simp only
                by_cases hlinks : links + 1 > 255
                · simp [hlinks]
                · rw [if_neg hlinks]
                  have hb : target.length + 2 ≤ fs.root.weight := by
                    have h1 := weight_lookupChild perm children nerr comp _ hlk
                    have hn' := hn
                    simp only [FNode.weight] at h1 hn'
                    omega
                  have hexp : (256 - links) * (fs.root.weight + 2)
                      = (256 - (links + 1)) * (fs.root.weight + 2)
                        + (fs.root.weight + 2) := by
                    have h256 : 256 - links = (256 - (links + 1)) + 1 := by omega
                    rw [h256, Nat.add_mul, one_mul]
                  by_cases habs : target.head? = some '/'
                  · rw [if_pos habs]
                    simp only [ne_eq]
                    apply ih
                    · exact le_rfl
                    · unfold evalMeasure
                      simp only [List.length_append]
                      have h2 := length_splitComps_le (target.drop 1)
                      have h3 : (target.drop 1).length ≤ target.length := by
                        simp [List.length_drop]
                      omega
                  · rw [if_neg habs]
                    simp only [ne_eq]
                    apply ih
                    · exact hn
                    · unfold evalMeasure
                      simp only [List.length_append]
                      have h2 := length_splitComps_le target
                      omega
              | file content ferr =>
                unfold updateFromChildN
                simp only [ne_eq]
                apply ih
                · simp only
                  have := weight_lookupChild perm children nerr comp _ hlk
                  omega
                · unfold evalMeasure
                  simp only
                  omega
              | dir p2 ch2 e2 =>
                unfold updateFromChildN
                simp only [ne_eq]
                apply ih
                · simp only
                  have := weight_lookupChild perm children nerr comp _ hlk
                  omega
                · unfold evalMeasure
                  simp only
                  omega
        | file c e => simp
        | symlink t e => simp

theorem mem_splitComps_no_slash (s : Str) : ∀ c ∈ splitComps s, ('/' : Char) ∉ c := by
  induction s with
  | nil =>
    intro c hc
    simp only [splitComps, List.mem_singleton] at hc
    subst hc
    simp
  | cons x rest ih =>
    intro c hc
    simp only [splitComps] at hc
    split at hc
    · rcases List.mem_cons.mp hc with h | h
      · subst h; simp
      · exact ih c h
    · rename_i hx
      cases hsp : splitComps rest with
      | nil => exact absurd hsp (splitComps_ne_nil rest)
      | cons comp comps =>
        rw [hsp] at hc
        rcases List.mem_cons.mp hc with h | h
        · subst h
          intro hmem
          rcases List.mem_cons.mp hmem with h2 | h2
          · exact hx h2.symm
          · exact ih comp (by rw [hsp]; exact List.mem_cons_self _ _) h2
        · exact ih c (by rw [hsp]; exact List.mem_cons_of_mem _ h)

theorem cleanWalk_append (xs ys : List Str) :
    ∀ n, cleanWalk n (xs ++ ys) = (cleanWalk n xs).bind (fun m => cleanWalk m ys) := by
  induction xs with
  | nil => intro n; simp [cleanWalk]
  | cons c cs ih =>
    intro n
    cases n with
    | dir p ch e =>
      simp only [List.cons_append, cleanWalk]
      cases lookupChild ch c with
      | none => simp
      | some child =>
        by_cases hs : child.isSymlink
        · simp [hs]
        · simp [hs, ih child]
    | file c2 e2 => simp [cleanWalk]
    | symlink t e2 => simp [cleanWalk]

theorem updFirst_self (ch : List (Str × FNode)) (name : Str) (c : FNode)
    (h : lookupChild ch name = some c) : updFirst ch name c = ch := by
  induction ch with
  | nil => simp [updFirst]
  | cons hd tl ih =>
    obtain ⟨nm, child⟩ := hd
    simp only [lookupChild] at h
    simp only [updFirst]
    split
    · rename_i heq
      rw [if_pos heq] at h
      cases h
      rfl
    · rename_i hne
      rw [if_neg hne] at h
      rw [ih h]

theorem cleanWalk_singleton (perm : Nat) (children : List (Str × FNode))
    (nerr : Option GoErr) (comp : Str) (c : FNode)
    (h : lookupChild children comp = some c) (hs : c.isSymlink = false) :
    cleanWalk (FNode.dir perm children nerr) [comp] = some c := by
  unfold cleanWalk
  dsimp only
  rw [h]
  dsimp only
  simp only [hs, Bool.false_eq_true, if_false]
  unfold cleanWalk
  rfl

/-- Invariant preservation for the symlink-evaluation loop: a successful run
from a cleanly-walked state yields a cleanly-walkable result (core of C7). -/
theorem runF_clean (fs : VFS) :
    ∀ (fuel : Nat) (st : EvalSt) (r : Str),
      CleanInv fs st → runF fs fuel st = some (.ok r) →
      ∃ m, cleanWalk fs.root (compsOf r) = some m := by
  intro fuel
  induction fuel with
  | zero =>
    intro st r hinv hrun
    obtain ⟨links, resolved, n, nameRem⟩ := st
    obtain ⟨hwalk, hnos⟩ := hinv
    unfold runF at hrun
    cases nameRem with
    | nil =>
      simp only [Option.some.injEq, Except.ok.injEq] at hrun
      subst hrun
      exact ⟨_, hwalk⟩
    | cons comp rest => simp at hrun
  | succ f ih =>
    intro st r hinv hrun
    obtain ⟨links, resolved, n, nameRem⟩ := st
    obtain ⟨hwalk, hnos⟩ := hinv
    unfold runF at hrun
    cases nameRem with
    | nil =>
      simp only [Option.some.injEq, Except.ok.injEq] at hrun
      subst hrun
      exact ⟨_, hwalk⟩
    | cons comp rest =>
      dsimp only at hwalk hnos hrun
      split at hrun
      · exact ih _ r ⟨hwalk, fun c hc => hnos c (List.mem_cons_of_mem _ hc)⟩ hrun
      · rename_i hcomp
        cases n with
        | dir perm children nerr =>
          dsimp only at hrun
          cases hlk : lookupChild children comp with
          | none => rw [hlk] at hrun; simp at hrun
          | some childN =>
            rw [hlk] at hrun
            dsimp only at hrun
            cases herr : childN.errOf with
            | some e => rw [herr] at hrun; simp at hrun
            | none =>
              rw [herr] at hrun
              dsimp only at hrun
              cases hupd : updateFromChildN fs
                  { links := links, resolved := resolved,
                    n := FNode.dir perm children nerr, nameRem := rest }
                  childN comp with
              | error e => rw [hupd] at hrun; simp at hrun
              | ok st' =>
                rw [hupd] at hrun
                dsimp only at hrun
                cases childN with
                | symlink target terr =>
                  unfold updateFromChildN at hupd
                  dsimp only at hupd
                  split at hupd
                  · cases hupd
                  · split at hupd
                    · cases hupd
                      apply ih _ r ?_ hrun
                      constructor
                      · rw [show compsOf ['/'] = [] from rfl]
                        rfl
                      · intro c hc
                        dsimp only at hc
                        rcases List.mem_append.mp hc with h | h
                        · exact mem_splitComps_no_slash _ c h
                        · exact hnos c (List.mem_cons_of_mem _ h)
                    · cases hupd
                      apply ih _ r ?_ hrun
                      constructor
                      · exact hwalk
                      · intro c hc
                        dsimp only at hc
                        rcases List.mem_append.mp hc with h | h
                        · exact mem_splitComps_no_slash _ c h
                        · exact hnos c (List.mem_cons_of_mem _ h)
                | file content ferr =>
                  unfold updateFromChildN at hupd
                  cases hupd
                  apply ih _ r ?_ hrun
                  constructor
                  · dsimp only
                    rw [compsOf_append resolved comp hcomp (hnos comp (List.mem_cons_self _ _))]
                    rw [cleanWalk_append (compsOf resolved) [comp] fs.root, hwalk]
                    simp only [Option.some_bind]
                    exact cleanWalk_singleton _ _ _ _ _ hlk rfl
                  · intro c hc
                    dsimp only at hc
                    exact hnos c (List.mem_cons_of_mem _ hc)
                | dir p2 ch2 e2 =>
                  unfold updateFromChildN at hupd
                  cases hupd
                  apply ih _ r ?_ hrun
                  constructor
                  · dsimp only
                    rw [compsOf_append resolved comp hcomp (hnos comp (List.mem_cons_self _ _))]
                    rw [cleanWalk_append (compsOf resolved) [comp] fs.root, hwalk]
                    simp only [Option.some_bind]
                    exact cleanWalk_singleton _ _ _ _ _ hlk rfl
                  · intro c hc
                    dsimp only at hc
                    exact hnos c (List.mem_cons_of_mem _ hc)
        | file c2 e2 => simp at hrun
        | symlink t2 e2 => simp at hrun

/-! ## Claim theorems -/

/-- C6: For every input path and in-memory file-system state, `EvalSymlinks`
terminates — the fuelled loop never exhausts its fuel, so it returns a resolved
path or a real error (first conjunct); a symlink substitution fails with the
too-many-links error exactly when more than 255 substitutions would have been
performed (second conjunct); and an allowed substitution prepends the link
target to the unconsumed suffix, an absolute target resetting the walk to the
root (third conjunct). -/
theorem evalSymlinks_terminates_after_255_substitutions :
    (∀ (fs : VFS) (path : Str), evalSymlinksRun fs path ≠ none)
  ∧ (∀ (fs : VFS) (st : EvalSt) (target : Str) (terr : Option GoErr) (comp : Str),
      updateFromChildN fs st (.symlink target terr) comp = .error .tooManyLinks
        ↔ 255 ≤ st.links)
  ∧ (∀ (fs : VFS) (st : EvalSt) (target : Str) (terr : Option GoErr) (comp : Str),
      st.links < 255 →
      updateFromChildN fs st (.symlink target terr) comp =
        .ok (if target.head? = some '/' then
              { links := st.links + 1, resolved := ['/'], n := fs.root,
                nameRem := splitComps (target.drop 1) ++ st.nameRem }
             else
              { links := st.links + 1, resolved := st.resolved, n := st.n,
                nameRem := splitComps target ++ st.nameRem })) := by
  refine ⟨?_, ?_, ?_⟩
  · intro fs path
    unfold evalSymlinksRun
    split
    · apply runF_fuel_sufficient fs _ _ le_rfl
      unfold evalMeasure evalFuel
      dsimp only
      have := Nat.mul_le_mul_right (fs.root.weight + 2) (show 256 - 0 ≤ 257 by omega)
      omega
    · apply runF_fuel_sufficient fs _ _ le_rfl
      unfold evalMeasure evalFuel
      dsimp only
      have := Nat.mul_le_mul_right (fs.root.weight + 2) (show 256 - 0 ≤ 257 by omega)
      omega
  · intro fs st target terr comp
    unfold updateFromChildN
    dsimp only
    by_cases h : st.links + 1 > 255
    · rw [if_pos h]
      simp only [true_iff]
      omega
    · rw [if_neg h]
      have hn : ¬ (255 ≤ st.links) := by omega
      by_cases h2 : target.head? = some '/'
      · rw [if_pos h2]
        simp [hn]
      · rw [if_neg h2]
        simp [hn]
  · intro fs st target terr comp hlt
    unfold updateFromChildN
    dsimp only
    rw [if_neg (by omega : ¬ st.links + 1 > 255)]
    by_cases h2 : target.head? = some '/'
    · rw [if_pos h2, if_pos h2]
    · rw [if_neg h2, if_neg h2]

/-- Witness for C6 at a concrete input: from a state with no substitutions
performed, substituting the absolute link target `/a` succeeds and resets the
walk to the root. -/
theorem evalSymlinks_terminates_after_255_substitutions_witness :
    updateFromChildN emptyFs
        { links := 0, resolved := ['/'], n := emptyFs.root, nameRem := [] }
        (.symlink "/a".toList none) "s".toList
      = .ok { links := 1, resolved := ['/'], n := emptyFs.root, nameRem := [['a']] }
    ∧ evalSymlinksRun emptyFs "/a".toList ≠ none := by
  constructor
  · rw [evalSymlinks_terminates_after_255_substitutions.2.2 emptyFs
      { links := 0, resolved := ['/'], n := emptyFs.root, nameRem := [] }
      "/a".toList none "s".toList (by decide)]
    rfl
  · exact evalSymlinks_terminates_after_255_substitutions.1 emptyFs "/a".toList

/-- C7: whenever `EvalSymlinks` succeeds with `r`, the components of `r` walk
from the root through existing nodes none of which is a symbolic link — the
result "contains no symlink components". -/
theorem evalSymlinks_result_has_no_symlink_components (fs : VFS) (p r : Str)
    (h : EvalSymlinks fs p = .ok r) :
    ∃ m, cleanWalk fs.root (compsOf r) = some m := by
  unfold EvalSymlinks at h
  by_cases hp : p.head? = some '/'
  · rw [if_pos hp] at h
    cases herr : fs.root.errOf with
    | some e => rw [herr] at h; simp at h
    | none =>
      rw [herr] at h
      cases hrun : evalSymlinksRun fs p with
      | none => rw [hrun] at h; simp at h
      | some v =>
        rw [hrun] at h
        simp only [Option.getD_some] at h
        subst h
        unfold evalSymlinksRun at hrun
        rw [if_pos hp] at hrun
        refine runF_clean fs _ _ r ⟨?_, ?_⟩ hrun
        · show cleanWalk fs.root (compsOf ['/']) = some fs.root
          rw [show compsOf ['/'] = [] from rfl]
          rfl
        · intro c hc
          exact mem_splitComps_no_slash _ c hc
  · rw [if_neg hp] at h
    cases hrun : evalSymlinksRun fs p with
    | none => rw [hrun] at h; simp at h
    | some v =>
      rw [hrun] at h
      simp only [Option.getD_some] at h
      subst h
      unfold evalSymlinksRun at hrun
      rw [if_neg hp] at hrun
      refine runF_clean fs _ _ r ⟨?_, ?_⟩ hrun
      · show cleanWalk fs.root (compsOf []) = some fs.root
        rfl
      · intro c hc
        exact mem_splitComps_no_slash _ c hc

/-- Witness for C7: on the test file system, `EvalSymlinks "/dir2/symlink"`
succeeds and its result walks cleanly (the symlink was substituted away). -/
theorem evalSymlinks_result_has_no_symlink_components_witness :
    ∃ m, cleanWalk testFs.root (compsOf "//dir2/file".toList) = some m :=
  evalSymlinks_result_has_no_symlink_components testFs
    "/dir2/symlink".toList "//dir2/file".toList (by rfl)

theorem mkdirCommonAux_allDirs (perm : Nat) :
    ∀ (comps : List Str) (n : FNode), allDirsOnPath n comps = true →
      mkdirCommonAux perm true n comps = (n, none) := by
  intro comps
  induction comps with
  | nil =>
    intro n hall
    unfold allDirsOnPath at hall
    unfold mkdirCommonAux
    rw [if_pos rfl, if_pos hall]
  | cons comp rest ih =>
    intro n hall
    unfold allDirsOnPath at hall
    unfold mkdirCommonAux
    split
    · rename_i hcomp
      rw [if_pos hcomp] at hall
      exact ih n hall
    · rename_i hcomp
      rw [if_neg hcomp] at hall
      cases n with
      | dir p children nerr =>
        dsimp only at hall ⊢
        cases hlk : lookupChild children comp with
        | none => rw [hlk] at hall; simp at hall
        | some child =>
          rw [hlk] at hall
          dsimp only at hall
          dsimp only
          rw [ih child hall]
          dsimp only
          rw [updFirst_self children comp child hlk]
      | file c2 e2 => simp [FNode.isDir] at hall
      | symlink t2 e2 => simp [FNode.isDir] at hall

theorem mkdirCommonAux_hitsNonDir (perm : Nat) :
    ∀ (comps : List Str) (n : FNode), hitsNonDir n comps = true →
      (mkdirCommonAux perm true n comps).2 = some .notDir := by
  intro comps
  induction comps with
  | nil =>
    intro n hhit
    unfold hitsNonDir at hhit
    unfold mkdirCommonAux
    rw [if_pos rfl]
    cases n with
    | dir p children nerr => simp [FNode.isDir] at hhit
    | file c2 e2 => rfl
    | symlink t2 e2 => rfl
  | cons comp rest ih =>
    intro n hhit
    unfold hitsNonDir at hhit
    unfold mkdirCommonAux
    split
    · rename_i hcomp
      rw [if_pos hcomp] at hhit
      exact ih n hhit
    · rename_i hcomp
      rw [if_neg hcomp] at hhit
      cases n with
      | dir p children nerr =>
        dsimp only at hhit ⊢
        cases hlk : lookupChild children comp with
        | none => rw [hlk] at hhit; simp at hhit
        | some child =>
          rw [hlk] at hhit
          dsimp only at hhit
          dsimp only
          exact ih child hhit
      | file c2 e2 => rfl
      | symlink t2 e2 => rfl

/-- C8 (amended): `MkdirAll` is a noop (file system unchanged, `nil` error)
when every component of the path already exists as a directory; it fails with
`not-a-directory` when an existing prefix component is not a directory; and it
rejects, before any modification, every mode containing a file-TYPE bit
(`os.ModeType`) — not every non-permission bit, see the counterexample. -/
theorem mkdirAll_noop_notADir_badMode :
    (∀ (fs : VFS) (name : Str) (perm : Nat), perm &&& goModeType = 0 →
       allDirsOnPath fs.root (splitComps name) = true →
       MkdirAll fs name perm = (fs, none))
  ∧ (∀ (fs : VFS) (name : Str) (perm : Nat), perm &&& goModeType = 0 →
       hitsNonDir fs.root (splitComps name) = true →
       (MkdirAll fs name perm).2 = some .notDir)
  ∧ (∀ (fs : VFS) (name : Str) (perm : Nat), perm &&& goModeType ≠ 0 →
       MkdirAll fs name perm = (fs, some .badMode)) := by
  refine ⟨?_, ?_, ?_⟩
  · intro fs name perm hperm hall
    unfold MkdirAll mkdirCommon
    rw [if_neg (fun hne => hne hperm)]
    dsimp only
    rw [mkdirCommonAux_allDirs perm (splitComps name) fs.root hall]
  · intro fs name perm hperm hhit
    unfold MkdirAll mkdirCommon
    rw [if_neg (fun hne => hne hperm)]
    dsimp only
    exact mkdirCommonAux_hitsNonDir perm (splitComps name) fs.root hhit
  · intro fs name perm hperm
    unfold MkdirAll mkdirCommon
    rw [if_pos hperm]

/-- Witness for C8 at concrete inputs: a fully existing directory path is a
noop; a path through an existing regular file fails with `not-a-directory`;
a mode with the directory type bit is refused. -/
theorem mkdirAll_noop_notADir_badMode_witness :
    MkdirAll ⟨FNode.dir 0 [("a".toList, FNode.dir 0 [] none)] none⟩ "/a".toList 0
      = (⟨FNode.dir 0 [("a".toList, FNode.dir 0 [] none)] none⟩, none)
  ∧ (MkdirAll ⟨FNode.dir 0 [("a".toList, FNode.file [] none)] none⟩ "/a/b".toList 0).2
      = some .notDir
  ∧ MkdirAll emptyFs "/x".toList goModeDir = (emptyFs, some .badMode) :=
  ⟨mkdirAll_noop_notADir_badMode.1 _ _ _ (by decide) (by decide),
   mkdirAll_noop_notADir_badMode.2.1 _ _ _ (by decide) (by decide),
   mkdirAll_noop_notADir_badMode.2.2 _ _ _ (by decide)⟩

/-- Counterexample to C8 as stated: `os.ModeSetuid` is a non-permission bit
(`setuid &&& 0o777 = 0`), yet `MkdirAll` does not reject it — the mode check is
`perm &&& os.ModeType`, and setuid is not a type bit; the call succeeds and
creates the directory. -/
theorem mkdirAll_nonPermissionBit_not_rejected :
    goModeSetuid &&& goModePerm = 0
  ∧ ¬ goModeSetuid = 0
  ∧ (MkdirAll emptyFs "/a".toList goModeSetuid).2 = none
  ∧ allDirsOnPath (MkdirAll emptyFs "/a".toList goModeSetuid).1.root
      (splitComps "/a".toList) = true := by
  refine ⟨by decide, by decide, by decide, by decide⟩

/-- C9: on the empty file system, `resolveBindVolumeHostPath "/dir1/dir1_1"`
returns `/dir1/dir1_1` with a `nil` error and leaves a directory at that path
(created by `MkdirAll` with mode `0777`); in general, when the walk reaches a
segment that does not exist, all remaining segments are appended literally and
the missing directories are created with `MkdirAll` at mode `0777`. -/
theorem resolveBindVolumeHostPath_creates_leaf :
    (resolveBindVolumeHostPath emptyFs "/dir1/dir1_1".toList
        = (.ok "/dir1/dir1_1".toList, (MkdirAll emptyFs "/dir1/dir1_1".toList 0o777).1)
      ∧ allDirsOnPath (resolveBindVolumeHostPath emptyFs "/dir1/dir1_1".toList).2.root
          (splitComps "/dir1/dir1_1".toList) = true)
  ∧ (∀ (fs : VFS) (result p : Str) (rest : List Str),
      EvalSymlinks fs (result ++ '/' :: p) = .error .notExist →
      rbvhpLoop fs result (p :: rest) =
        (match (MkdirAll fs
            (result ++ '/' :: p ++ rest.foldl (fun acc q => acc ++ '/' :: q) [])
            0o777).2 with
         | none => .ok (result ++ '/' :: p ++ rest.foldl (fun acc q => acc ++ '/' :: q) [])
         | some er => .error er,
         (MkdirAll fs
            (result ++ '/' :: p ++ rest.foldl (fun acc q => acc ++ '/' :: q) [])
            0o777).1)) := by
  constructor
  · exact ⟨by rfl, by decide⟩
  · intro fs result p rest h
    unfold rbvhpLoop
    dsimp only
    rw [h]

/-- Witness for C9's general conjunct at a concrete input: on the empty file
system the very first segment `/dir1` is missing, so the remaining segment is
appended literally and created via `MkdirAll` at mode `0777`. -/
theorem resolveBindVolumeHostPath_creates_leaf_witness :
    rbvhpLoop emptyFs [] ["dir1".toList, "dir1_1".toList] =
      (match (MkdirAll emptyFs "/dir1/dir1_1".toList 0o777).2 with
       | none => .ok "/dir1/dir1_1".toList
       | some er => .error er,
       (MkdirAll emptyFs "/dir1/dir1_1".toList 0o777).1) := by
  have h := resolveBindVolumeHostPath_creates_leaf.2 emptyFs [] "dir1".toList
    ["dir1_1".toList] (by rfl)
  rw [h]
  rfl

theorem rlaipLoop_none (rd : Str) :
    ∀ (summaries : List ImageSummary),
      (∀ s ∈ summaries, repoDigestsHave rd s.repoDigests = false) →
      rlaipLoop rd summaries = ([], []) := by
  intro summaries
  induction summaries with
  | nil => intro _; rfl
  | cons s rest ih =>
    intro hall
    unfold rlaipLoop
    rw [hall s (List.mem_cons_self _ _)]
    simp only [Bool.false_eq_true, if_false]
    exact ih (fun s2 hs2 => hall s2 (List.mem_cons_of_mem _ hs2))

theorem rlaipLoop_found (rd : Str) :
    ∀ (summaries : List ImageSummary) (s : ImageSummary),
      summaries.find? (fun s2 => repoDigestsHave rd s2.repoDigests) = some s →
      rlaipLoop rd summaries = (s.id, rd) := by
  intro summaries
  induction summaries with
  | nil => intro s h; simp [List.find?] at h
  | cons hd rest ih =>
    intro s h
    unfold rlaipLoop
    cases hh : repoDigestsHave rd hd.repoDigests with
    | true =>
      rw [List.find?_cons_of_pos _ (by simpa using hh)] at h
      cases h
      simp
    | false =>
      rw [List.find?_cons_of_neg _ (by simpa using hh)] at h
      simp only [Bool.false_eq_true, if_false]
      exact ih s h

/-- C10: after a successful image-list query, `ResolveLocalImageAfterPull`
never reports "image not found" through its error result: the error is always
`nil`; when no listed image carries the repo digest
`familiarName + "@" + digest` the result is `("", "")`, and when one does, the
result is that (first matching) image's ID together with the repo digest. -/
theorem resolveLocalImageAfterPull_not_found_is_nil_error :
    (∀ (summaries : List ImageSummary) (familiarName digest : Str),
       (ResolveLocalImageAfterPull summaries familiarName digest).2 = none)
  ∧ (∀ (summaries : List ImageSummary) (familiarName digest : Str),
       (∀ s ∈ summaries,
          repoDigestsHave (familiarName ++ '@' :: digest) s.repoDigests = false) →
       ResolveLocalImageAfterPull summaries familiarName digest = (([], []), none))
  ∧ (∀ (summaries : List ImageSummary) (familiarName digest : Str)
       (s : ImageSummary),
       summaries.find?
           (fun s2 => repoDigestsHave (familiarName ++ '@' :: digest) s2.repoDigests)
         = some s →
       ResolveLocalImageAfterPull summaries familiarName digest
         = ((s.id, familiarName ++ '@' :: digest), none)) := by
  refine ⟨fun _ _ _ => rfl, ?_, ?_⟩
  · intro summaries familiarName digest hall
    unfold ResolveLocalImageAfterPull
    rw [rlaipLoop_none _ _ hall]
  · intro summaries familiarName digest s h
    unfold ResolveLocalImageAfterPull
    rw [rlaipLoop_found _ _ s h]

/-- Witness for C10 at concrete inputs: a listing without the repo digest
yields `("", "", nil)`; a listing where the second image carries
`name@sha256:x` yields that image's ID. -/
theorem resolveLocalImageAfterPull_not_found_is_nil_error_witness :
    ResolveLocalImageAfterPull [⟨"id1".toList, ["other".toList]⟩]
        "name".toList "sha256:x".toList = (([], []), none)
  ∧ ResolveLocalImageAfterPull
        [⟨"id1".toList, ["other".toList]⟩,
         ⟨"id2".toList, ["name@sha256:x".toList]⟩]
        "name".toList "sha256:x".toList
      = (("id2".toList, "name@sha256:x".toList), none) := by
  constructor
  · exact resolveLocalImageAfterPull_not_found_is_nil_error.2.1 _ _ _ (by decide)
  · have h := resolveLocalImageAfterPull_not_found_is_nil_error.2.2
      [⟨"id1".toList, ["other".toList]⟩, ⟨"id2".toList, ["name@sha256:x".toList]⟩]
      "name".toList "sha256:x".toList ⟨"id2".toList, ["name@sha256:x".toList]⟩
      (by decide)
    rw [h]
    rfl

theorem sepJoin_cons (sep x : Str) :
    ∀ xs, sepJoin sep (x :: xs) = x ++ prejoin sep xs := by
  intro xs
  induction xs generalizing x with
  | nil => simp [sepJoin, prejoin]
  | cons y ys ih =>
    show x ++ sep ++ sepJoin sep (y :: ys) = x ++ prejoin sep (y :: ys)
    rw [ih y]
    show x ++ sep ++ (y ++ prejoin sep ys) = x ++ (sep ++ y ++ prejoin sep ys)
    simp [List.append_assoc]

theorem dockerfileCopyLines_eq (l : List Bool) :
    ∀ i, dockerfileCopyLines i l
      = prejoin [] ((List.enumFrom i l).map fun p => copyLineSpec p.1 p.2) := by
  induction l with
  | nil => intro i; rfl
  | cons d rest ih =>
    intro i
    unfold dockerfileCopyLines
    rw [ih (i + 1)]
    simp only [List.enumFrom, List.map, prejoin, List.nil_append]
    cases d
    · rw [if_neg (by decide : ¬ (false = true))]
      simp only [copyLineSpec, Bool.false_eq_true, if_false, List.append_assoc,
        List.nil_append]
      rfl
    · rw [if_pos (rfl : (true : Bool) = true)]
      simp only [copyLineSpec, eq_self_iff_true, if_true, List.append_assoc]
      rfl

theorem dockerfileCpParts_from_two (l : List Bool) :
    ∀ i, 2 ≤ i → dockerfileCpParts i l
      = prejoin " && ".toList ((List.enumFrom i l).map fun p => cpPartSpec p.1) := by
  induction l with
  | nil => intro i _; rfl
  | cons d rest ih =>
    intro i hi
    unfold dockerfileCpParts
    rw [if_pos (by omega : i > 1), ih (i + 1) (by omega)]
    simp only [List.enumFrom, List.map, prejoin, cpPartSpec, List.append_assoc]

theorem dockerfileCpParts_one (l : List Bool) :
    dockerfileCpParts 1 l
      = sepJoin " && ".toList ((List.enumFrom 1 l).map fun p => cpPartSpec p.1) := by
  cases l with
  | nil => rfl
  | cons d rest =>
    unfold dockerfileCpParts
    rw [if_neg (by omega : ¬ (1 : Nat) > 1), dockerfileCpParts_from_two rest 2 (by omega)]
    simp only [List.enumFrom, List.map]
    rw [sepJoin_cons]
    simp only [cpPartSpec, List.nil_append, List.append_assoc]

/-- C5: `buildVolumeInitImageGetDockerfile [true, false]` produces exactly the
expected Dockerfile bytes (with `cp -r`, as in the source); in general the
`i`-th `COPY` line carries trailing slashes on source and destination exactly
when entry `i` is a directory, and the `ENTRYPOINT` `cp` commands are joined
with `" && "` in index order. -/
theorem buildVolumeInitImageGetDockerfile_shape :
    buildVolumeInitImageGetDockerfile [true, false]
      = ("ARG BASE_IMAGE\nFROM ${BASE_IMAGE}\nCOPY data1/ /app/data/vol1/\nCOPY data2 /app/data/vol2\nENTRYPOINT [\"bash\", \"-c\", \"cp -r /app/data/vol1 /mnt/vol1/root && cp -r /app/data/vol2 /mnt/vol2/root\"]\n").toList
  ∧ ∀ (isDirSlice : List Bool),
      buildVolumeInitImageGetDockerfile isDirSlice
        = "ARG BASE_IMAGE\nFROM ${BASE_IMAGE}\n".toList
          ++ prejoin [] ((List.enumFrom 1 isDirSlice).map fun p => copyLineSpec p.1 p.2)
          ++ "ENTRYPOINT [\"bash\", \"-c\", \"".toList
          ++ sepJoin " && ".toList ((List.enumFrom 1 isDirSlice).map fun p => cpPartSpec p.1)
          ++ "\"]\n".toList := by
  constructor
  · rfl
  · intro l
    unfold buildVolumeInitImageGetDockerfile
    rw [dockerfileCopyLines_eq l 1, dockerfileCpParts_one l]

/-- With a writer that cannot fail, `run` reports an error with an uncorrupted
writer only when `Lstat` itself failed — before anything was written. -/
theorem runTop_error_uncorrupt (fs : VFS) (ctx : TarCtx) (st : TarState)
    (hostFile fileNameInTar : Str) (d : Bool) (e : GoErr) (st' : TarState)
    (hrun : runTop fs ctx st hostFile fileNameInTar = (d, some e, st'))
    (hc : st'.twMayBeCorrupt = false) :
    st' = st ∧ d = false ∧ Lstat fs hostFile = .error e := by
  unfold runTop at hrun
  cases hls : Lstat fs hostFile with
  | error e2 =>
    rw [hls] at hrun
    cases hrun
    exact ⟨rfl, rfl, rfl⟩
  | ok n =>
    rw [hls] at hrun
    dsimp only at hrun
    cases hrec : (runRecursiveF ctx n.weight st n hostFile fileNameInTar).2 with
    | none => rw [hrec] at hrun; simp at hrun
    | some e2 =>
      rw [hrec] at hrun
      dsimp only at hrun
      split at hrun
      · rename_i hcor
        cases hrun
        rw [hc] at hcor
        cases hcor
      · simp at hrun

/-- C2: if the helper's `run` returns an error and the tar writer has not been
marked possibly-corrupt, the entry point synthesizes a single empty-directory
entry named `renameTo + "/"` and returns `isDir = true, err = nil`; if the
writer is marked possibly-corrupt, the error is propagated unchanged with
`isDir = false`. -/
theorem bindMount_root_error_recovery (fs : VFS) (hostFile renameTo : Str)
    (d : Bool) (e : GoErr) (st' : TarState)
    (hrun : runTop fs { renameTo := renameTo, rootHostFile := hostFile }
        { entries := [], twMayBeCorrupt := false } hostFile renameTo
      = (d, some e, st')) :
    (st'.twMayBeCorrupt = false →
       bindMouseHostFileToTar fs hostFile renameTo
         = (true, none, { entries := [.dirE (renameTo ++ ['/'])], twMayBeCorrupt := false }))
  ∧ (st'.twMayBeCorrupt = true →
       bindMouseHostFileToTar fs hostFile renameTo = (false, some e, st')) := by
  constructor
  · intro hc
    obtain ⟨hst, hd, hls⟩ := runTop_error_uncorrupt fs _ _ hostFile renameTo d e st' hrun hc
    unfold bindMouseHostFileToTar
    dsimp only
    rw [hrun]
    dsimp only
    rw [hc]
    subst hst
    rfl
  · intro hc
    unfold bindMouseHostFileToTar
    dsimp only
    rw [hrun]
    dsimp only
    rw [hc]
    rfl

/-- Witness for C2 at the test scenario: `/origerr` carries a seeded error, so
`Lstat` fails, the walk errors with an uncorrupted writer, and
`materialize("origerr", "renamed2")` emits exactly one directory entry
`renamed2/` and returns `isDir = true, err = nil`. -/
theorem bindMount_root_error_recovery_witness :
    bindMouseHostFileToTar testFs "origerr".toList "renamed2".toList
      = (true, none,
         { entries := [.dirE "renamed2/".toList], twMayBeCorrupt := false }) :=
  (bindMount_root_error_recovery testFs "origerr".toList "renamed2".toList
    false .testErr { entries := [], twMayBeCorrupt := false } (by rfl)).1 rfl

/-- The containment check equals component-wise containment under the root:
target exactly the root, or nested strictly below it. -/
theorem isFileWithinBindHostRoot_iff (ctx : TarCtx) (target : Str) :
    isFileWithinBindHostRoot ctx target = true ↔
      ContainedUnder target ctx.rootHostFile := by
  unfold isFileWithinBindHostRoot ContainedUnder
  constructor
  · intro h
    split at h
    · rename_i hpre
      obtain ⟨t, ht⟩ := List.isPrefixOf_iff_prefix.mp hpre
      split at h
      · rename_i hlen
        left
        have hlt := congrArg List.length ht
        simp only [List.length_append] at hlt
        have ht0 : t = [] := List.eq_nil_of_length_eq_zero (by omega)
        subst ht0
        simpa using ht.symm
      · split at h
        · rename_i hhd
          right
          rw [← ht] at hhd
          rw [List.drop_left] at hhd
          cases t with
          | nil => simp at hhd
          | cons c crest =>
            simp only [List.head?_cons, Option.some.injEq] at hhd
            subst hhd
            exact ⟨crest, ht.symm⟩
        · cases h
    · cases h
  · intro h
    rcases h with h | ⟨rest, hrest⟩
    · subst h
      rw [if_pos (List.isPrefixOf_iff_prefix.mpr (List.prefix_refl _))]
      rw [if_pos rfl]
    · subst hrest
      rw [if_pos (List.isPrefixOf_iff_prefix.mpr ⟨'/' :: rest, rfl⟩)]
      have hlen : ¬ (ctx.rootHostFile ++ '/' :: rest).length = ctx.rootHostFile.length := by
        simp
      rw [if_neg hlen]
      rw [List.drop_left]
      simp

/-- C3 (amended): for a symbolic link read successfully during materialization,
with `T` the link target resolved against the link's parent (or taken absolute),
a tar symlink entry is written iff `T` is component-wise contained under the
bind root (on posix both volumes are empty); when written, the entry's name is
the in-tar path and its link name is the relative path from the entry's parent
in the tar tree to `T`'s position in the tar tree; when not contained, the
returned error names the offending link and the *bind root* (not the resolved
target — see the counterexample). -/
theorem runSymlink_containment_policy (ctx : TarCtx) (st : TarState)
    (target hostFile fileNameInTar : Str) :
    (isFileWithinBindHostRoot ctx (resolveLinkTarget hostFile target) = true
       ↔ ContainedUnder (resolveLinkTarget hostFile target) ctx.rootHostFile)
  ∧ (isFileWithinBindHostRoot ctx (resolveLinkTarget hostFile target) = true →
       runSymlink ctx st (.symlink target none) hostFile fileNameInTar
         = (writeEntry st (.lnkE fileNameInTar
             ((goRel (goDir fileNameInTar)
                 (ctx.renameTo
                   ++ (resolveLinkTarget hostFile target).drop
                        ctx.rootHostFile.length)).toOption.getD [])),
            none))
  ∧ (isFileWithinBindHostRoot ctx (resolveLinkTarget hostFile target) = false →
       runSymlink ctx st (.symlink target none) hostFile fileNameInTar
           = (st, some (.errMsg (escapeMsg hostFile ctx.rootHostFile)))
       ∧ hostFile <:+: escapeMsg hostFile ctx.rootHostFile
       ∧ ctx.rootHostFile <:+: escapeMsg hostFile ctx.rootHostFile) := by
  refine ⟨isFileWithinBindHostRoot_iff ctx _, ?_, ?_⟩
  · intro h
    unfold runSymlink
    dsimp only
    rw [if_pos h]
  · intro h
    refine ⟨?_, ?_, ?_⟩
    · unfold runSymlink
      dsimp only
      rw [h]
      rfl
    · exact ⟨"target of symlink ".toList ++ ['"'],
        ['"'] ++ " it outside the bind volume with host ".toList
          ++ goQuote ctx.rootHostFile,
        by simp [escapeMsg, goQuote, List.append_assoc]⟩
    · exact ⟨"target of symlink ".toList ++ goQuote hostFile
          ++ " it outside the bind volume with host ".toList ++ ['"'],
        ['"'],
        by simp [escapeMsg, goQuote, List.append_assoc]⟩

set_option maxRecDepth 8192

/-- Witness for C3 at the test scenario (`/dir2/symlink → file`): the resolved
target `dir2/file` is contained under the root `dir2`, and the entry written is
a symlink named `renamed/symlink` with link name `file` — the relative path
from `renamed` to `renamed/file`. -/
theorem runSymlink_containment_policy_witness :
    runSymlink { renameTo := "renamed".toList, rootHostFile := "dir2".toList }
        { entries := [], twMayBeCorrupt := false }
        (.symlink "file".toList none) "dir2/symlink".toList "renamed/symlink".toList
      = ({ entries := [.lnkE "renamed/symlink".toList "file".toList],
           twMayBeCorrupt := false }, none) := by
  have h := (runSymlink_containment_policy
    { renameTo := "renamed".toList, rootHostFile := "dir2".toList }
    { entries := [], twMayBeCorrupt := false }
    "file".toList "dir2/symlink".toList "renamed/symlink".toList).2.1 (by decide)
  rw [h]
  rfl

/-- Counterexample to C3 as stated: the symlink-escape error for
`dir3/symlink → /dir2` (root `dir3`) does not mention the resolved target
`/dir2` at all — it interpolates the link path and the bind root. -/
theorem runSymlink_escape_error_counterexample :
    resolveLinkTarget "dir3/symlink".toList "/dir2".toList = "/dir2".toList
  ∧ (runSymlink { renameTo := "renamed".toList, rootHostFile := "dir3".toList }
        { entries := [], twMayBeCorrupt := false }
        (.symlink "/dir2".toList none) "dir3/symlink".toList "renamed/symlink".toList).2
      = some (.errMsg (escapeMsg "dir3/symlink".toList "dir3".toList))
  ∧ ¬ ("/dir2".toList <:+: escapeMsg "dir3/symlink".toList "dir3".toList) := by
  refine ⟨by rfl, by rfl, by decide⟩

/-- C4 (evidence of the code bug): on the test file system with
`/dir3/symlink → /dir2`, materializing `("dir3", "renamed")` does NOT fail:
the in-`run` recovery block of the source converts the symlink-escape error
into an empty-directory entry named after the host file's base name (with the
slash `tar.FileInfoHeader` appends for a directory plus the recovery's own
slash, hence `dir3//`) and returns `isDir = true, err = nil` — contradicting
the repository's own test
`Test_BindMountHostFileToTar_ErrorSymlinkNotWithinBindHostRoot` (which expects
a non-nil error) and the spec's scenario 6. -/
theorem bindMount_symlink_escape_swallowed :
    bindMouseHostFileToTar testFs "dir3".toList "renamed".toList
      = (true, none,
         { entries := [.dirE "renamed/".toList, .dirE "dir3//".toList],
           twMayBeCorrupt := false }) := by
  rfl

theorem findDigestIdx_matches (m : Str) :
    ∀ loc, findDigestIdx m = some loc → matchDigestAt (m.drop loc) = true := by
  induction m with
  | nil => intro loc h; simp [findDigestIdx] at h
  | cons c rest ih =>
    intro loc h
    unfold findDigestIdx at h
    split at h
    · rename_i hm
      cases h
      exact hm
    · cases hrec : findDigestIdx rest with
      | none => rw [hrec] at h; exact Option.noConfusion h
      | some i =>
        rw [hrec] at h
        simp only [Option.map_some', Option.some.injEq] at h
        subst h
        rw [List.drop_succ_cons]
        exact ih i hrec

theorem extractDigest_ne_nil (m : Str) (d : Str) (h : extractDigest m = some d) :
    ¬ d = [] := by
  unfold extractDigest at h
  cases hidx : findDigestIdx m with
  | none => rw [hidx] at h; exact Option.noConfusion h
  | some loc =>
    rw [hidx] at h
    simp only [Option.map_some', Option.some.injEq] at h
    subst h
    have hm := findDigestIdx_matches m loc hidx
    unfold matchDigestAt at hm
    simp only [Bool.and_eq_true] at hm
    obtain ⟨t, ht⟩ := List.isPrefixOf_iff_prefix.mp hm.1.1
    intro hnil
    rw [List.take_eq_nil_iff] at hnil
    rcases hnil with h71 | hdrop
    · cases h71
    · rw [← ht] at hdrop
      simp at hdrop

theorem buildImageIDScan_eq_getLastD (msgs : List Str) :
    ∀ acc, msgs.foldl
        (fun imageID m =>
          match extractDigest m with
          | some d => d
          | none => imageID) acc
      = (msgs.filterMap extractDigest).getLastD acc := by
  induction msgs with
  | nil => intro acc; rfl
  | cons m rest ih =>
    intro acc
    simp only [List.foldl_cons, List.filterMap_cons]
    cases hx : extractDigest m with
    | none => exact ih acc
    | some d =>
      rw [List.getLastD_cons]
      exact ih d

/-- C1 (amended): the image-ID scan of `buildVolumeInitImage` records, for each
message that contains a digest match, the leftmost match of that message, the
later message overwriting the earlier — so the returned identifier is the
leftmost digest match of the *last* matching message; the
could-not-parse-image-id error is returned exactly when no message contains a
match by end-of-stream. -/
theorem buildVolumeInitImage_imageID_last_match (msgs : List Str) :
    (∀ d, lastDigestAcrossStream msgs = some d →
       buildVolumeInitImageID msgs = .ok d)
  ∧ (buildVolumeInitImageID msgs
       = .error (.errMsg "could not parse image ID from docker build output stream".toList)
     ↔ ∀ m ∈ msgs, extractDigest m = none) := by
  have hscan : buildImageIDScan msgs = (msgs.filterMap extractDigest).getLastD [] :=
    buildImageIDScan_eq_getLastD msgs []
  constructor
  · intro d hd
    unfold lastDigestAcrossStream at hd
    have hne : ¬ d = [] := by
      have hmem : d ∈ msgs.filterMap extractDigest := List.mem_of_mem_getLast? hd
      obtain ⟨m, _, hm⟩ := List.mem_filterMap.mp hmem
      exact extractDigest_ne_nil m d hm
    unfold buildVolumeInitImageID
    have hr : buildImageIDScan msgs = d := by
      rw [hscan, List.getLastD_eq_getLast?, hd]
      rfl
    rw [hr, if_neg hne]
  · constructor
    · intro h
      unfold buildVolumeInitImageID at h
      dsimp only at h
      split at h
      · rename_i hnil
        rw [hscan] at hnil
        rw [← List.filterMap_eq_nil_iff]
        cases hfm : msgs.filterMap extractDigest with
        | nil => rfl
        | cons x xs =>
          exfalso
          rw [hfm] at hnil
          have hmem : (x :: xs).getLastD [] ∈ x :: xs := by
            rw [List.getLastD_eq_getLast?]
            cases hgl : (x :: xs).getLast? with
            | none => simp [List.getLast?] at hgl
            | some y =>
              simp only [Option.getD_some]
              exact List.mem_of_mem_getLast? hgl
          rw [hnil] at hmem
          obtain ⟨m, _, hm⟩ := List.mem_filterMap.mp (hfm ▸ hmem)
          exact extractDigest_ne_nil m [] hm rfl
      · cases h
    · intro h
      unfold buildVolumeInitImageID
      dsimp only
      have : buildImageIDScan msgs = [] := by
        rw [hscan, List.filterMap_eq_nil_iff.mpr h]
        rfl
      rw [this, if_pos rfl]

/-- Witness for C1's amended theorem at a concrete two-message stream: the last
matching message's digest is returned. -/
theorem buildVolumeInitImage_imageID_last_match_witness :
    buildVolumeInitImageID
        ["sha256:".toList ++ List.replicate 64 'a',
         "sha256:".toList ++ List.replicate 64 'b']
      = .ok ("sha256:".toList ++ List.replicate 64 'b') := by
  apply (buildVolumeInitImage_imageID_last_match _).1
  decide

/-- Counterexample to C1 as stated: for a stream whose first message carries
digest `a…` and whose second carries digest `b…`, the code returns the *second*
digest, while "the first such match across the whole stream" is the first. -/
theorem buildVolumeInitImage_imageID_counterexample :
    buildVolumeInitImageID
        ["sha256:".toList ++ List.replicate 64 'a',
         "sha256:".toList ++ List.replicate 64 'b']
      = .ok ("sha256:".toList ++ List.replicate 64 'b')
  ∧ firstDigestAcrossStream
        ["sha256:".toList ++ List.replicate 64 'a',
         "sha256:".toList ++ List.replicate 64 'b']
      = some ("sha256:".toList ++ List.replicate 64 'a')
  ∧ ¬ ("sha256:".toList ++ List.replicate 64 'a')
      = ("sha256:".toList ++ List.replicate 64 'b') := by
  refine ⟨by rfl, by rfl, by decide⟩
